import Mathlib

/-!
Verification development for the QnA-Bot repository.

Strings from the JavaScript source are modelled as `List Char`.  The embedding
covers, faithfully to the source:

* `DocumentProcessor.splitIntoChunks` (src/server/services/documentProcessor.js,
  lines 113-168), including the blank-line paragraph split `text.split(/\n\s*\n/)`,
  the word-level split `paragraph.split(/\s+/)`, the 100-character overlap and the
  `"[Empty document]"` sentinel;
* `DocumentProcessor.searchSimilarDocuments` (lines 171-248): query tokenization,
  regex-based scoring and the stable descending sort plus the fallbacks;
* `DocumentProcessor.removeDocumentsByFileId` (lines 257-265);
* `ConversationService` (conversationService.js): `getConversation`,
  `updateConversation` (last-20 truncation), `addMessageToConversation`;
* the `/api/answer` message assembly and the `/api/knowledge-base/:id` DELETE
  endpoint from the main server file.
-/

/-- Whitespace per the JavaScript `\s` character class (ECMA-262): tab, LF, VT,
FF, CR, space, NBSP, plus the Unicode space separators and BOM.  This is the
separator class used by both `split(/\n\s*\n/)` and `split(/\s+/)` in the
source. -/
def jsSpace (c : Char) : Bool :=
  c = ' ' || c = '\t' || c = '\n' || c = '\x0b' || c = '\x0c' || c = '\r' ||
  c.val = 0x00a0 || c.val = 0x1680 || (0x2000 ≤ c.val && c.val ≤ 0x200a) ||
  c.val = 0x2028 || c.val = 0x2029 || c.val = 0x202f || c.val = 0x205f ||
  c.val = 0x3000 || c.val = 0xfeff

/-- Word characters per the JavaScript `\w` class: ASCII letters, digits and
underscore.  Used both by the word-boundary assertion `\b` and by the
punctuation-stripping `replace(/[^\w]/g, '')` in the tokenizer. -/
def isWordChar (c : Char) : Bool :=
  c.isAlpha || c.isDigit || c = '_'

/-- Lower-casing of a string, modelling JavaScript `toLowerCase()` (the source
only ever feeds it search text; this models the ASCII case fold). -/
def lowerStr (s : List Char) : List Char :=
  s.map Char.toLower

/-- Splitting on runs of whitespace, modelling JavaScript `s.split(/\s+/)`.
Each maximal whitespace run is a separator; a leading run produces a leading
empty piece and a trailing run a trailing empty piece, exactly as in
JavaScript (`" a ".split(/\s+/)` is `["", "a", ""]`).  `inRun` records whether
the previous character was part of a (already emitted) separator run; `cur` is
the current piece accumulated in reverse. -/
def splitWsGo (inRun : Bool) (cur : List Char) : List Char → List (List Char)
  | [] => [cur.reverse]
  | c :: t =>
    if jsSpace c then
      if inRun then splitWsGo true [] t
      else cur.reverse :: splitWsGo true [] t
    else splitWsGo false (c :: cur) t

/-- JavaScript `s.split(/\s+/)` (see `splitWsGo`). -/
def splitWs (s : List Char) : List (List Char) :=
  splitWsGo false [] s

/-- Reversal-free view of a whitespace run collected by `parasGo` (the run is
accumulated in reverse). -/
def runOf (wsBuf : List Char) : List Char :=
  wsBuf.reverse

/-- Given a maximal whitespace run, the part of the run strictly before its
first newline (it belongs to the piece on the left of the separator). -/
def runBefore (run : List Char) : List Char :=
  run.takeWhile (fun c => c ≠ '\n')

/-- Given a maximal whitespace run, the part of the run strictly after its last
newline (it belongs to the piece on the right of the separator). -/
def runAfter (run : List Char) : List Char :=
  (run.reverse.takeWhile (fun c => c ≠ '\n')).reverse

/-- Does a whitespace run contain at least two newlines?  Exactly then does the
regex `/\n\s*\n/` match inside the run. -/
def runHasSep (run : List Char) : Bool :=
  2 ≤ (run.filter (fun c => c = '\n')).length

/-- Paragraph splitting, modelling JavaScript `text.split(/\n\s*\n/)`.

A leftmost, greedy match of `/\n\s*\n/` starts at the first newline of a
maximal whitespace run that contains at least two newlines, and (because `\s*`
is greedy and backtracks only far enough to leave a final `\n`) extends to the
last newline of that run.  Whitespace of the run before its first newline
stays with the left piece, whitespace after its last newline with the right
piece, and no further match can start inside the remainder of the run (it
holds no newline).  Hence the split is computed run by run: `cur` is the
current piece (reversed) and `wsBuf` the pending whitespace run (reversed). -/
def parasGo (cur wsBuf : List Char) : List Char → List (List Char)
  | [] =>
    if runHasSep (runOf wsBuf) then
      [(cur.reverse ++ runBefore (runOf wsBuf)), runAfter (runOf wsBuf)]
    else
      [cur.reverse ++ runOf wsBuf]
  | c :: t =>
    if jsSpace c then parasGo cur (c :: wsBuf) t
    else
      if runHasSep (runOf wsBuf) then
        (cur.reverse ++ runBefore (runOf wsBuf)) ::
          parasGo (c :: (runAfter (runOf wsBuf)).reverse) [] t
      else parasGo (c :: (wsBuf ++ cur)) [] t

/-- JavaScript `text.split(/\n\s*\n/)` (see `parasGo`). -/
def splitParas (s : List Char) : List (List Char) :=
  parasGo [] [] s

/-- The sentinel chunk `"[Empty document]"` returned for empty input
(documentProcessor.js lines 115 and 167). -/
def sentinel : List Char :=
  "[Empty document]".toList

/-- The separator re-inserted between accumulated paragraphs
(`currentChunk += (currentChunk ? "\n\n" : "") + paragraph`). -/
def nl2 : List Char :=
  ['\n', '\n']

/-- One iteration of the inner word loop of `splitIntoChunks`
(documentProcessor.js lines 141-147).  State: emitted chunks and the running
`wordChunk`. -/
def wordStep (st : List (List Char) × List Char) (word : List Char) :
    List (List Char) × List Char :=
  let chunks := st.1
  let wordChunk := st.2
  let pushed :=
    if wordChunk.length + word.length + 1 > 1000 then
      (chunks ++ [wordChunk], ([] : List Char))
    else (chunks, wordChunk)
  (pushed.1, pushed.2 ++ (if pushed.2 = [] then [] else [' ']) ++ word)

/-- One iteration of the paragraph loop of `splitIntoChunks`
(documentProcessor.js lines 124-160).  State: emitted chunks and the running
`currentChunk`.  Chunk size 1000, overlap 100 as in the source;
`currentChunk.slice(-100)` is `drop (length - 100)`. -/
def paraStep (st : List (List Char) × List Char) (paragraph : List Char) :
    List (List Char) × List Char :=
  let chunks := st.1
  let currentChunk := st.2
  if currentChunk.length + paragraph.length > 1000 then
    let saved :=
      if currentChunk.length > 0 then
        (chunks ++ [currentChunk],
         if currentChunk.length > 100 then
           currentChunk.drop (currentChunk.length - 100)
         else currentChunk)
      else (chunks, currentChunk)
    if paragraph.length > 1000 then
      let words := splitWs paragraph
      let inner := words.foldl wordStep (saved.1, saved.2)
      if inner.2.length > 0 then (inner.1, inner.2) else (inner.1, [])
    else
      (saved.1, saved.2 ++ (if saved.2 = [] then [] else nl2) ++ paragraph)
  else
    (chunks, currentChunk ++ (if currentChunk = [] then [] else nl2) ++ paragraph)

/-- `DocumentProcessor.splitIntoChunks` (documentProcessor.js lines 113-168). -/
def splitIntoChunks (text : List Char) : List (List Char) :=
  if text.length = 0 then [sentinel]
  else
    let paragraphs := splitParas text
    let st := paragraphs.foldl paraStep ([], [])
    let chunks := if st.2.length > 0 then st.1 ++ [st.2] else st.1
    if chunks.length > 0 then chunks else [sentinel]

/-- Chunk metadata as built in `processFile` (documentProcessor.js lines 68-84).
Only the fields the verified claims depend on are modelled: `filename` (title
boost in scoring) and `fileId` (bulk removal key).  Both are optional because
the error path (lines 99-107) creates metadata without them. -/
structure DocMetadata where
  filename : Option (List Char)
  fileId : Option (List Char)
deriving DecidableEq, Repr

/-- A stored chunk (`{ pageContent, metadata }`).  `metadata` is optional
because `removeDocumentsByFileId` and the scorer both guard on
`doc.metadata`. -/
structure Doc where
  pageContent : List Char
  metadata : Option DocMetadata
deriving DecidableEq, Repr

/-- Query tokenization (documentProcessor.js lines 182-184):
lower-case, split on whitespace, drop tokens of length at most 2, then strip
non-word characters from each survivor.  Note the strip happens after the
length filter, so a token such as `"!!!"` survives the filter and is then
stripped to the empty string. -/
def tokenize (query : List Char) : List (List Char) :=
  (((splitWs (lowerStr query)).filter (fun w => w.length > 2)).map
    (fun w => w.filter isWordChar))

/-- Is the character at index `i` a word character (out-of-range counts as
non-word)?  Used for the `\b` word-boundary assertion. -/
def wordAt (s : List Char) (i : Nat) : Bool :=
  match s[i]? with
  | some c => isWordChar c
  | none => false

/-- Does a `\b` word boundary hold at position `i` of `s` (positions run from 0
to `s.length`)?  A boundary holds where the word-ness of the character before
position `i` differs from the word-ness of the character at position `i`. -/
def boundaryAt (s : List Char) (i : Nat) : Bool :=
  (match i with
   | 0 => false
   | j + 1 => wordAt s j) != wordAt s i

/-- Number of matches of `new RegExp("\\b" + kw + "\\b", "g")` in `text`
(documentProcessor.js lines 201-204).  The keywords fed here consist of word
characters only (the tokenizer stripped everything else), so two whole-word
matches can never overlap: each match is flanked by non-word characters, so
distinct match positions are at least `kw.length + 1` apart.  Hence the
global, non-overlapping, left-to-right regex count equals the count of all
positions carrying a flanked occurrence, which is how it is defined here.
For the empty keyword the regex degenerates to `/\b\b/g`, which produces one
(empty) match at every word-boundary position. -/
def countExact (kw text : List Char) : Nat :=
  if kw.length = 0 then
    (List.range (text.length + 1)).countP (fun i => boundaryAt text i)
  else
    (List.range (text.length + 1)).countP
      (fun i =>
        ((text.drop i).take kw.length == kw) && boundaryAt text i &&
          boundaryAt text (i + kw.length))

/-- Left-to-right, non-overlapping occurrence counting for a non-empty keyword:
on a match, the scan resumes after the matched characters (regex `lastIndex`
advances by the match length); otherwise it advances one character.  `fuel` is
an upper bound on the number of scan steps; each step consumes at least one
character, so `fuel = s.length` suffices (see `countSubstr`). -/
def countSubstrGo (kw : List Char) : Nat → List Char → Nat
  | 0, _ => 0
  | _, [] => 0
  | fuel + 1, c :: t =>
    if (c :: t).take kw.length == kw then
      1 + countSubstrGo kw fuel (t.drop (kw.length - 1))
    else countSubstrGo kw fuel t

/-- Number of matches of `new RegExp(kw, "g")` in `text` (documentProcessor.js
lines 208-211): non-overlapping, leftmost-first (`"aaa".match(/aa/g)` has one
match).  An empty keyword yields one empty match at every position including
the end, i.e. `text.length + 1` matches. -/
def countSubstr (kw text : List Char) : Nat :=
  if kw.length = 0 then text.length + 1
  else countSubstrGo kw text.length text

/-- JavaScript `s.includes(kw)` (documentProcessor.js line 219); the empty
string is included in every string. -/
def includesStr (kw s : List Char) : Bool :=
  (List.range (s.length + 1)).any (fun i => (s.drop i).take kw.length == kw)

/-- The per-chunk score of `searchSimilarDocuments` (documentProcessor.js lines
194-226): over the lower-cased chunk text, 10 points per whole-word match and
2 points per substring match of every keyword, then 50 points per keyword
contained in the lower-cased filename (only when metadata and filename are
present). -/
def scoreDoc (keywords : List (List Char)) (doc : Doc) : Nat :=
  let text := lowerStr doc.pageContent
  let base := keywords.foldl
    (fun s kw => s + countExact kw text * 10 + countSubstr kw text * 2) 0
  match doc.metadata with
  | some m =>
    match m.filename with
    | some fn =>
      let fnLower := lowerStr fn
      keywords.foldl
        (fun s kw => s + (if includesStr kw fnLower then 50 else 0)) base
    | none => base
  | none => base

/-- The comparison used to model the stable `sort((a, b) => b.score - a.score)`
(documentProcessor.js line 230): descending by score.  JavaScript's
`Array.prototype.sort` is stable, and a stable sort's output is uniquely
determined by the comparator, so the stable `List.insertionSort` below models
it exactly. -/
def scoreGE (a b : Doc × Nat) : Prop :=
  b.2 ≤ a.2

instance : DecidableRel scoreGE := fun a b => Nat.decLe b.2 a.2

/-- `DocumentProcessor.searchSimilarDocuments` (documentProcessor.js lines
171-248) minus logging.  The catch-all handler (line 244-247) is dead in this
embedding: none of the modelled operations can throw. -/
def searchSimilarDocuments (documents : List Doc) (query : List Char) (k : Nat) :
    List Doc :=
  if documents.length = 0 then []
  else
    let keywords := tokenize query
    if keywords.length = 0 then documents.take k
    else
      let scoredDocs := documents.map (fun d => (d, scoreDoc keywords d))
      let results :=
        (((scoredDocs.insertionSort scoreGE).take k).filter
          (fun item => item.2 > 0)).map (fun item => item.1)
      if results.length = 0 then documents.take (min 3 documents.length)
      else results

/-- `DocumentProcessor.removeDocumentsByFileId` keeps a chunk iff
`!doc.metadata || doc.metadata.fileId !== fileId`
(documentProcessor.js lines 257-265). -/
def removeDocumentsByFileId (fileId : List Char) (documents : List Doc) :
    List Doc :=
  documents.filter
    (fun doc =>
      match doc.metadata with
      | none => true
      | some m => !(m.fileId == some fileId))

/-- Does a chunk carry the given source identifier, i.e. does it have metadata
whose `fileId` equals it? -/
def carries (fileId : List Char) (doc : Doc) : Bool :=
  match doc.metadata with
  | some m => m.fileId == some fileId
  | none => false

/-- One conversation turn (`{ role, content }`). -/
structure Message where
  role : List Char
  content : List Char
deriving DecidableEq, Repr

/-- The `ConversationService` state: the `Map` from conversation ids to message
arrays (conversationService.js line 3).  `none` models an absent key. -/
def ConvState : Type :=
  List Char → Option (List Message)

/-- The empty conversation store (`new Map()`). -/
def emptyConvState : ConvState :=
  fun _ => none

/-- Point update of the conversation map (`this.conversations.set(id, v)`). -/
def setConv (st : ConvState) (id : List Char) (v : List Message) : ConvState :=
  fun i => if i = id then some v else st i

/-- The last `n` elements of a list, modelling JavaScript `slice(-n)` for
`n > 0`. -/
def sliceLast (l : List Message) (n : Nat) : List Message :=
  l.drop (l.length - n)

/-- `ConversationService.getConversation` (conversationService.js lines 6-11):
returns the stored array, inserting an empty one first when the id is
absent.  Result: the returned array and the possibly-updated state. -/
def getConversation (st : ConvState) (id : List Char) :
    List Message × ConvState :=
  match st id with
  | some l => (l, st)
  | none => ([], setConv st id [])

/-- `ConversationService.updateConversation` (conversationService.js lines
13-17): stores only the last 20 messages. -/
def updateConversation (st : ConvState) (id : List Char)
    (messages : List Message) : ConvState :=
  setConv st id (sliceLast messages 20)

/-- `ConversationService.addMessageToConversation` (conversationService.js
lines 19-23): push onto the (created-if-absent) array, then truncate to the
last 20. -/
def addMessageToConversation (st : ConvState) (id : List Char)
    (message : Message) : ConvState :=
  let got := getConversation st id
  updateConversation got.2 id (got.1 ++ [message])

/-- The window currently held for an id (absent ids read as empty). -/
def windowOf (st : ConvState) (id : List Char) : List Message :=
  (st id).getD []

/-- A sequence of append operations, each targeting some conversation id. -/
def applyAppends (ops : List (List Char × Message)) (st : ConvState) :
    ConvState :=
  ops.foldl (fun s op => addMessageToConversation s op.1 op.2) st

/-- Appending a batch of messages to one conversation id, in order. -/
def appendMany (st : ConvState) (id : List Char) (msgs : List Message) :
    ConvState :=
  msgs.foldl (fun s m => addMessageToConversation s id m) st

/-- JavaScript `array.join(sep)`: empty for the empty array, otherwise the
first element followed by `sep ++ next` for each further element. -/
def joinSep (sep : List Char) : List (List Char) → List Char
  | [] => []
  | x :: xs => xs.foldl (fun acc y => acc ++ sep ++ y) x

/-- The per-document context block
`"[Document: " + (doc.metadata?.filename || 'Unknown') + "]\n" + doc.pageContent`
(main server file, line 207).  A missing metadata, a missing filename and an
empty filename all fall back to `"Unknown"` (the empty string is falsy). -/
def docContextBlock (doc : Doc) : List Char :=
  let fn :=
    match doc.metadata with
    | some m =>
      match m.filename with
      | some f => if f = [] then "Unknown".toList else f
      | none => "Unknown".toList
    | none => "Unknown".toList
  "[Document: ".toList ++ fn ++ "]\n".toList ++ doc.pageContent

/-- The knowledge-base context string assembled by the answer endpoint (main
server file, lines 200-224): the retrieved chunks' blocks joined with
`"\n\n---\n\n"`, or, when retrieval came back empty but the store is
non-empty, a fallback block built from the first stored chunk; empty when the
store is empty. -/
def buildContext (relevantDocs : List Doc) (store : List Doc) : List Char :=
  if relevantDocs.length > 0 then
    joinSep "\n\n---\n\n".toList (relevantDocs.map docContextBlock)
  else
    match store with
    | [] => []
    | firstDoc :: _ =>
      "[No exact matches found, using available document]\n".toList ++
        firstDoc.pageContent

/-- The system-turn content used when knowledge-base context is available
(main server file, line 236). -/
def kbSystemContent (ctx : List Char) : List Char :=
  ("You are a helpful assistant. Use the following information from the " ++
   "knowledge base to inform your answer when relevant, but also rely on " ++
   "your general knowledge. The user has uploaded documents, and the " ++
   "information below comes from those documents. The user is asking about " ++
   "the content of these documents.\n\nKnowledge Base Information:\n").toList ++
  ctx ++
  "\n\nMaintain conversation context and provide relevant, concise answers.".toList

/-- The generic system-turn content used without knowledge-base context (main
server file, line 241). -/
def genericSystemContent : List Char :=
  ("You are a helpful assistant. Maintain conversation context and provide " ++
   "relevant, concise answers.").toList

/-- The message list assembled by `POST /api/answer` (main server file, lines
184-254) for the completion call.  `history` is the optional request-body
history array (`some []` is a provided-but-empty array, which JavaScript's
`history || conversationMessages` still uses, arrays being truthy);
`conversationId` is the optional conversation id; `convState` the
conversation service state.  Retrieval runs with `k = 3` (line 202). -/
def answerMessages (store : List Doc) (convState : ConvState)
    (history : Option (List Message)) (conversationId : Option (List Char))
    (question : List Char) : List Message :=
  let conversationMessages :=
    match conversationId with
    | some id => (getConversation convState id).1
    | none => []
  let messageHistory :=
    match history with
    | some h => h
    | none => conversationMessages
  let relevantDocs := searchSimilarDocuments store question 3
  let contextFromKnowledgeBase := buildContext relevantDocs store
  let sysMsg : Message :=
    if contextFromKnowledgeBase.length > 0 then
      ⟨"system".toList, kbSystemContent contextFromKnowledgeBase⟩
    else ⟨"system".toList, genericSystemContent⟩
  let messages :=
    sysMsg :: messageHistory.filter (fun msg => msg.role ≠ "system".toList)
  if history.isNone && conversationId.isSome then
    messages ++ [⟨"user".toList, question⟩]
  else messages

/-- A knowledge-base metadata record as kept by the repository
(knowledgeBaseRepository.js); only the lookup key `_id` and the `userId`
authorization field matter for the deletion claim. -/
structure KbDoc where
  kbId : List Char
  userId : List Char
deriving DecidableEq, Repr

/-- The server-side state touched by the DELETE endpoint: the repository's
document metadata and the document processor's in-memory chunk store. -/
structure ServerState where
  kbDocs : List KbDoc
  chunkStore : List Doc
deriving DecidableEq, Repr

/-- `KnowledgeBaseRepository.removeDocument` (knowledgeBaseRepository.js lines
128-166), in-memory branch: look the record up by id, reject a missing record
or a foreign `userId` (the function throws, modelled as `none`), otherwise
delete the record. -/
def removeKbDocument (id userId : List Char) (docs : List KbDoc) :
    Option (List KbDoc) :=
  match docs.find? (fun d => d.kbId == id) with
  | none => none
  | some d =>
    if d.userId = userId then some (docs.filter (fun e => !(e.kbId == id)))
    else none

/-- The `DELETE /api/knowledge-base/:id` endpoint (main server file, lines
153-172).  It calls only `knowledgeBaseRepository.removeDocument`; the
in-memory chunk store is left untouched — the source comments
"In a production system, we would remove only the vectors for this document.
For simplicity, we're keeping all document chunks in memory."  The returned
Bool is the HTTP success flag (`false` is the 500 response). -/
def deleteKnowledgeBaseEndpoint (id userId : List Char) (st : ServerState) :
    ServerState × Bool :=
  match removeKbDocument id userId st.kbDocs with
  | some kb => ({ st with kbDocs := kb }, true)
  | none => (st, false)

/-- The accumulation step of the chunker's paragraph loop in the no-overflow
case: `currentChunk += (currentChunk ? "\n\n" : "") + paragraph`. -/
def joinStep (acc p : List Char) : List Char :=
  acc ++ (if acc = [] then [] else nl2) ++ p

/-- All paragraphs re-accumulated by `joinStep` from the empty buffer: the
single chunk the chunker produces when nothing ever overflows. -/
def joinParas (ps : List (List Char)) : List Char :=
  ps.foldl joinStep []

theorem joinStep_length_ge (acc p : List Char) :
    acc.length + p.length ≤ (joinStep acc p).length := by
  by_cases h : acc = []
  · simp [joinStep, h, nl2]
  · simp [joinStep, h, nl2]
    omega

theorem foldl_joinStep_length_ge (ps : List (List Char)) (acc : List Char) :
    acc.length ≤ (ps.foldl joinStep acc).length := by
  induction ps generalizing acc with
  | nil => exact le_refl _
  | cons p ps ih =>
    calc acc.length ≤ acc.length + p.length := Nat.le_add_right _ _
      _ ≤ (joinStep acc p).length := joinStep_length_ge acc p
      _ ≤ _ := ih (joinStep acc p)

theorem foldl_paraStep_small (ps : List (List Char))
    (chunks : List (List Char)) (acc : List Char)
    (h : (ps.foldl joinStep acc).length ≤ 1000) :
    ps.foldl paraStep (chunks, acc) = (chunks, ps.foldl joinStep acc) := by
  induction ps generalizing chunks acc with
  | nil => rfl
  | cons p ps ih =>
    have h1 : (joinStep acc p).length ≤ (ps.foldl joinStep (joinStep acc p)).length :=
      foldl_joinStep_length_ge ps (joinStep acc p)
    have h2 : acc.length + p.length ≤ (joinStep acc p).length :=
      joinStep_length_ge acc p
    have hcond : ¬ (acc.length + p.length > 1000) := by
      simp only [List.foldl_cons] at h
      omega
    have hstep : paraStep (chunks, acc) p = (chunks, joinStep acc p) := by
      simp only [paraStep, joinStep]
      rw [if_neg hcond]
    simp only [List.foldl_cons] at h ⊢
    rw [hstep]
    exact ih chunks (joinStep acc p) h

/-- C5 counterexample: the text `"a\n\n\nb"` has length 5 ≤ 1000, yet
`chunk` does not return it unchanged — the three-newline paragraph separator
is re-joined as exactly two newlines, so the single returned chunk is
`"a\n\nb"`. -/
theorem c5_counterexample :
    splitIntoChunks "a\n\n\nb".toList = ["a\n\nb".toList] ∧
      splitIntoChunks "a\n\n\nb".toList ≠ ["a\n\n\nb".toList] := by
  constructor
  · decide
  · decide

/-- C5 (amended): for every non-empty text `T` of length at most 1000 whose
blank-line separators re-join to `T` itself (in particular whenever every
paragraph separator is exactly two newlines and `T` does not begin with one),
`chunk(T)` returns exactly one chunk equal to `T`. -/
theorem c5_theorem (T : List Char) (hne : T ≠ []) (hlen : T.length ≤ 1000)
    (hjoin : joinParas (splitParas T) = T) :
    splitIntoChunks T = [T] := by
  have hlen0 : ¬ (T.length = 0) := by
    simpa [List.length_eq_zero] using hne
  have hfold : (splitParas T).foldl paraStep ([], []) = ([], T) := by
    have := foldl_paraStep_small (splitParas T) [] []
      (by rw [show (splitParas T).foldl joinStep [] = T from hjoin]; exact hlen)
    rw [this, show (splitParas T).foldl joinStep [] = T from hjoin]
  simp only [splitIntoChunks, hfold, if_neg hlen0]
  have hTlen : T.length > 0 := Nat.pos_of_ne_zero hlen0
  simp [hTlen]

/-- C5 witness: `"hello\n\nworld"` is non-empty, short, and reconstructed by
the paragraph re-join, so it comes back as the single chunk. -/
theorem c5_witness :
    splitIntoChunks "hello\n\nworld".toList = ["hello\n\nworld".toList] :=
  c5_theorem "hello\n\nworld".toList (by decide) (by decide) (by decide)

/-- C6 counterexample: the whitespace-only input `" "` does not yield the
sentinel — the chunker returns the single chunk `" "` itself. -/
theorem c6_counterexample :
    splitIntoChunks " ".toList = [" ".toList] ∧ " ".toList ≠ sentinel := by
  constructor
  · decide
  · decide

/-- C6 (amended): the chunker never returns an empty sequence; the empty input
yields exactly the sentinel chunk, and so does any input that is exactly one
blank-line separator (its paragraph split is two empty pieces, e.g. `"\n\n"`);
but other whitespace-only inputs such as `" "` yield their own whitespace
content as the single chunk, not the sentinel. -/
theorem c6_theorem :
    splitIntoChunks [] = [sentinel] ∧
      (∀ T : List Char, T ≠ [] → splitParas T = [[], []] →
        splitIntoChunks T = [sentinel]) ∧
      (∀ T : List Char, splitIntoChunks T ≠ []) := by
  refine ⟨by decide, ?_, ?_⟩
  · intro T hne hsplit
    have hlen0 : ¬ (T.length = 0) := by
      simpa [List.length_eq_zero] using hne
    simp [splitIntoChunks, hsplit, if_neg hlen0, paraStep, sentinel]
  · intro T
    unfold splitIntoChunks
    split
    · simp [sentinel]
    · dsimp only
      split
      · split
        · simp
        · simp [sentinel]
      · split
        · exact List.ne_nil_of_length_pos (by assumption)
        · simp [sentinel]

/-- C6 witness: `"\n\n"` is a non-empty, whitespace-only input that is exactly
one blank-line separator, and the chunker maps it to the sentinel chunk. -/
theorem c6_witness : splitIntoChunks ['\n', '\n'] = [sentinel] :=
  c6_theorem.2.1 ['\n', '\n'] (by decide) (by decide)


set_option maxRecDepth 400000 in
/-- C7 counterexample: a single 1001-character word overflows the chunk size,
and the word loop then pushes the still-empty `wordChunk` before refilling it,
so the chunker emits an empty chunk (the full output is
`["", "aaa...a"]`) even though the input is non-empty. -/
theorem c7_counterexample : [] ∈ splitIntoChunks (List.replicate 1001 'a') := by
  decide

/-- The `saved` intermediate state of the paragraph loop: the current chunk is
pushed (when non-empty) and replaced by its trailing 100-character overlap
(when longer than that). -/
def paraSaved (st : List (List Char) × List Char) :
    List (List Char) × List Char :=
  if st.2.length > 0 then
    (st.1 ++ [st.2],
     if st.2.length > 100 then st.2.drop (st.2.length - 100) else st.2)
  else (st.1, st.2)

theorem paraStep_fst (st : List (List Char) × List Char) (p : List Char) :
    (paraStep st p).1 =
      if st.2.length + p.length > 1000 then
        if p.length > 1000 then
          ((splitWs p).foldl wordStep (paraSaved st)).1
        else (paraSaved st).1
      else st.1 := by
  by_cases c1 : st.2.length + p.length > 1000
  · by_cases c2 : p.length > 1000
    · simp only [paraStep, paraSaved, if_pos c1, if_pos c2]
      split <;> simp only [apply_ite Prod.fst, ite_self]
    · simp only [paraStep, paraSaved, if_pos c1, if_neg c2]
  · simp only [paraStep, if_neg c1]

theorem wordStep_no_empty (st : List (List Char) × List Char) (w : List Char)
    (hw : w.length + 1 ≤ 1000) (hc : [] ∉ st.1) : [] ∉ (wordStep st w).1 := by
  simp only [wordStep]
  split
  · next h =>
    have hne : st.2 ≠ [] := by
      intro hnil
      rw [hnil] at h
      simp at h
      omega
    intro hmem
    rcases List.mem_append.mp hmem with hm | hm
    · exact hc hm
    · have h0 : ([] : List Char) = st.2 := by simpa using hm
      exact hne h0.symm
  · exact hc

theorem wordFold_no_empty (words : List (List Char)) :
    ∀ st : List (List Char) × List Char,
      (∀ w ∈ words, w.length + 1 ≤ 1000) → [] ∉ st.1 →
        [] ∉ (words.foldl wordStep st).1 := by
  induction words with
  | nil => exact fun st _ hc => hc
  | cons w ws ih =>
    intro st hw hc
    simp only [List.foldl_cons]
    exact ih (wordStep st w) (fun v hv => hw v (by simp [hv]))
      (wordStep_no_empty st w (hw w (by simp)) hc)

theorem paraSaved_no_empty (st : List (List Char) × List Char)
    (hc : [] ∉ st.1) : [] ∉ (paraSaved st).1 := by
  simp only [paraSaved]
  split
  · next h =>
    intro hmem
    rcases List.mem_append.mp hmem with hm | hm
    · exact hc hm
    · have h2 : st.2 = [] := ((by simpa using hm) : [] = st.2).symm
      rw [h2] at h
      simp at h
  · exact hc

theorem paraStep_no_empty (st : List (List Char) × List Char) (p : List Char)
    (hw : ∀ w ∈ splitWs p, w.length + 1 ≤ 1000) (hc : [] ∉ st.1) :
    [] ∉ (paraStep st p).1 := by
  rw [paraStep_fst]
  split
  · split
    · exact wordFold_no_empty (splitWs p) (paraSaved st) hw
        (paraSaved_no_empty st hc)
    · exact paraSaved_no_empty st hc
  · exact hc

theorem paraFold_no_empty (ps : List (List Char)) :
    ∀ st : List (List Char) × List Char,
      (∀ p ∈ ps, ∀ w ∈ splitWs p, w.length + 1 ≤ 1000) → [] ∉ st.1 →
        [] ∉ (ps.foldl paraStep st).1 := by
  induction ps with
  | nil => exact fun st _ hc => hc
  | cons p ps ih =>
    intro st hp hc
    simp only [List.foldl_cons]
    exact ih (paraStep st p) (fun q hq => hp q (by simp [hq]))
      (paraStep_no_empty st p (hp p (by simp)) hc)

/-- C7 (amended): the chunker emits no empty chunk — except via the sentinel
path, which yields the non-empty sentinel — provided every
whitespace-delimited word of every paragraph is shorter than the chunk size.
Dropping that proviso the claim fails: a word of length at least 1000 reached
while the word buffer is empty makes the word loop push an empty chunk (see
the counterexample). -/
theorem c7_theorem (T : List Char)
    (hw : ∀ p ∈ splitParas T, ∀ w ∈ splitWs p, w.length + 1 ≤ 1000) :
    ∀ c ∈ splitIntoChunks T, c ≠ [] := by
  intro c hc
  unfold splitIntoChunks at hc
  by_cases hT : T.length = 0
  · rw [if_pos hT] at hc
    simp at hc
    rw [hc]
    decide
  · rw [if_neg hT] at hc
    dsimp only at hc
    have hfold : [] ∉ ((splitParas T).foldl paraStep ([], [])).1 :=
      paraFold_no_empty (splitParas T) ([], []) hw (by simp)
    set st := (splitParas T).foldl paraStep ([], []) with hst
    have hchunks : [] ∉ (if st.2.length > 0 then st.1 ++ [st.2] else st.1) := by
      by_cases h2 : st.2.length > 0
      · rw [if_pos h2]
        intro hmem
        rcases List.mem_append.mp hmem with hm | hm
        · exact hfold hm
        · have h0 : st.2 = [] := ((by simpa using hm) : [] = st.2).symm
          rw [h0] at h2
          simp at h2
      · rw [if_neg h2]
        exact hfold
    by_cases h3 : (if st.2.length > 0 then st.1 ++ [st.2] else st.1).length > 0
    · rw [if_pos h3] at hc
      intro hnil
      rw [hnil] at hc
      exact hchunks hc
    · rw [if_neg h3] at hc
      have hs : c = sentinel := by simpa using hc
      rw [hs]
      decide

/-- C7 witness: a short ordinary text, whose words are all far below the chunk
size, yields no empty chunk. -/
theorem c7_witness : ([] : List Char) ∉ splitIntoChunks "hello world".toList :=
  fun h => c7_theorem "hello world".toList (by decide) [] h rfl

theorem sliceLast_length_le (l : List Message) (n : Nat) :
    (sliceLast l n).length ≤ n := by
  simp [sliceLast]
  omega

theorem sliceLast_of_le (l : List Message) (n : Nat) (h : l.length ≤ n) :
    sliceLast l n = l := by
  unfold sliceLast
  rw [show l.length - n = 0 by omega]
  exact List.drop_zero l

theorem sliceLast_sliceLast_append (xs ys : List Message) (n : Nat) :
    sliceLast (sliceLast xs n ++ ys) n = sliceLast (xs ++ ys) n := by
  unfold sliceLast
  rw [List.drop_append_eq_append_drop, List.drop_append_eq_append_drop,
      List.drop_drop]
  congr 1
  · congr 1
    simp only [List.length_append, List.length_drop]
    omega
  · congr 1
    simp only [List.length_append, List.length_drop]
    omega

theorem windowOf_addMessage_self (st : ConvState) (id : List Char)
    (m : Message) :
    windowOf (addMessageToConversation st id m) id =
      sliceLast (windowOf st id ++ [m]) 20 := by
  unfold addMessageToConversation getConversation updateConversation setConv
    windowOf
  cases h : st id <;> simp [h]

theorem windowOf_addMessage_other (st : ConvState) (id i : List Char)
    (m : Message) (h : i ≠ id) :
    windowOf (addMessageToConversation st id m) i = windowOf st i := by
  unfold addMessageToConversation getConversation updateConversation setConv
    windowOf
  cases hs : st id <;> simp [h, hs]

theorem applyAppends_bounded (ops : List (List Char × Message)) :
    ∀ st : ConvState, (∀ i, (windowOf st i).length ≤ 20) →
      ∀ i, (windowOf (applyAppends ops st) i).length ≤ 20 := by
  induction ops with
  | nil => exact fun st h => h
  | cons op ops ih =>
    intro st h i
    simp only [applyAppends, List.foldl_cons]
    refine ih (addMessageToConversation st op.1 op.2) ?_ i
    intro j
    by_cases hj : j = op.1
    · rw [hj, windowOf_addMessage_self]
      exact sliceLast_length_le _ _
    · rw [windowOf_addMessage_other st op.1 j op.2 hj]
      exact h j

theorem appendMany_windowOf (msgs : List Message) :
    ∀ (st : ConvState) (id : List Char), (windowOf st id).length ≤ 20 →
      windowOf (appendMany st id msgs) id =
        sliceLast (windowOf st id ++ msgs) 20 := by
  induction msgs with
  | nil =>
    intro st id h
    simp only [appendMany, List.foldl_nil, List.append_nil]
    exact (sliceLast_of_le _ _ h).symm
  | cons m ms ih =>
    intro st id h
    simp only [appendMany, List.foldl_cons] at ih ⊢
    rw [ih (addMessageToConversation st id m) id
        (by rw [windowOf_addMessage_self]; exact sliceLast_length_le _ _),
      windowOf_addMessage_self, sliceLast_sliceLast_append,
      List.append_assoc, List.singleton_append]

/-- C3: starting from the empty conversation store, after any sequence of
appends (to any mixture of conversation ids) every window holds at most 20
turns; and appending 25 turns to one id leaves exactly the last 20 appended
turns in order — the first 5 are dropped from the front. -/
theorem c3_theorem :
    (∀ (ops : List (List Char × Message)) (id : List Char),
      (windowOf (applyAppends ops emptyConvState) id).length ≤ 20) ∧
    (∀ (id : List Char) (msgs : List Message), msgs.length = 25 →
      windowOf (appendMany emptyConvState id msgs) id = msgs.drop 5) := by
  constructor
  · intro ops id
    refine applyAppends_bounded ops emptyConvState ?_ id
    intro i
    simp [windowOf, emptyConvState]
  · intro id msgs h25
    have h0 : (windowOf emptyConvState id).length ≤ 20 := by
      simp [windowOf, emptyConvState]
    rw [appendMany_windowOf msgs emptyConvState id h0]
    have hw : windowOf emptyConvState id = [] := by
      simp [windowOf, emptyConvState]
    rw [hw, List.nil_append]
    unfold sliceLast
    rw [h25]

/-- C3 witness: 25 concrete pairwise-distinct turns appended to conversation
`"c"` leave exactly turns 5..24. -/
theorem c3_witness :
    windowOf
        (appendMany emptyConvState "c".toList
          ((List.range 25).map
            (fun i => ⟨"user".toList, List.replicate i 'x'⟩)))
        "c".toList =
      ((List.range 25).map
        (fun i => ⟨"user".toList, List.replicate i 'x'⟩)).drop 5 :=
  c3_theorem.2 "c".toList _ (by simp)

theorem foldl_add_pair (f g : List Char → Nat) (l : List (List Char)) :
    ∀ s : Nat, l.foldl (fun a kw => a + f kw + g kw) s =
      s + (l.map (fun kw => f kw + g kw)).sum := by
  induction l with
  | nil => intro s; simp
  | cons kw t ih =>
    intro s
    simp only [List.foldl_cons, List.map_cons, List.sum_cons, ih]
    omega

theorem foldl_add_bonus (p : List Char → Bool) (l : List (List Char)) :
    ∀ s : Nat, l.foldl (fun a kw => a + (if p kw then 50 else 0)) s =
      s + 50 * l.countP p := by
  induction l with
  | nil => intro s; simp
  | cons kw t ih =>
    intro s
    simp only [List.foldl_cons, List.countP_cons, ih]
    by_cases hp : p kw
    · simp [hp]
      omega
    · simp [hp]

/-- C4: for every chunk (with metadata and filename present, as every chunk
built by `processFile` has) and every keyword list, the score computed by the
search loop equals: summed over the keywords, 10 points per whole-word
(word-boundary) match in the lower-cased chunk text plus 2 points per
substring match there (exact matches counted again in the substring tally, by
construction), plus 50 points for each keyword contained anywhere in the
lower-cased filename. -/
theorem c4_theorem (doc : Doc) (m : DocMetadata) (fn : List Char)
    (kws : List (List Char)) (hm : doc.metadata = some m)
    (hf : m.filename = some fn) :
    scoreDoc kws doc =
      (kws.map (fun kw =>
         10 * countExact kw (lowerStr doc.pageContent) +
         2 * countSubstr kw (lowerStr doc.pageContent))).sum +
      50 * kws.countP (fun kw => includesStr kw (lowerStr fn)) := by
  unfold scoreDoc
  rw [hm]
  dsimp only
  rw [hf]
  dsimp only
  rw [foldl_add_pair
      (fun kw => countExact kw (lowerStr doc.pageContent) * 10)
      (fun kw => countSubstr kw (lowerStr doc.pageContent) * 2) kws 0,
    foldl_add_bonus (fun kw => includesStr kw (lowerStr fn)) kws]
  have hsum : (kws.map (fun kw =>
      countExact kw (lowerStr doc.pageContent) * 10 +
      countSubstr kw (lowerStr doc.pageContent) * 2)).sum =
    (kws.map (fun kw =>
      10 * countExact kw (lowerStr doc.pageContent) +
      2 * countSubstr kw (lowerStr doc.pageContent))).sum := by
    congr 1
    apply List.map_congr_left
    intro kw _
    omega
  omega

/-- C4 witness: a concrete chunk and keyword list, with the two sides of the
score identity evaluated. -/
theorem c4_witness :
    scoreDoc ["alpha".toList] ⟨"Alpha beta.\n\ngamma alpha ALPHA".toList,
        some ⟨some "alpha-notes.txt".toList, some "f1".toList⟩⟩ = 86 ∧
      (10 * countExact "alpha".toList
          (lowerStr "Alpha beta.\n\ngamma alpha ALPHA".toList) +
        2 * countSubstr "alpha".toList
          (lowerStr "Alpha beta.\n\ngamma alpha ALPHA".toList)) + 50 * 1 = 86 := by
  constructor
  · rw [ c4_theorem ⟨"Alpha beta.\n\ngamma alpha ALPHA".toList,
        some ⟨some "alpha-notes.txt".toList, some "f1".toList⟩⟩
        ⟨some "alpha-notes.txt".toList, some "f1".toList⟩
        "alpha-notes.txt".toList ["alpha".toList] rfl rfl]
    decide
  · decide

theorem scoreDoc_base_le (kws : List (List Char)) (d : Doc) :
    (kws.map (fun kw =>
       countExact kw (lowerStr d.pageContent) * 10 +
       countSubstr kw (lowerStr d.pageContent) * 2)).sum ≤ scoreDoc kws d := by
  unfold scoreDoc
  cases hm : d.metadata with
  | none =>
    dsimp only
    rw [foldl_add_pair
        (fun kw => countExact kw (lowerStr d.pageContent) * 10)
        (fun kw => countSubstr kw (lowerStr d.pageContent) * 2) kws 0]
    omega
  | some m =>
    dsimp only
    cases hf : m.filename with
    | none =>
      dsimp only
      rw [foldl_add_pair
          (fun kw => countExact kw (lowerStr d.pageContent) * 10)
          (fun kw => countSubstr kw (lowerStr d.pageContent) * 2) kws 0]
      omega
    | some fn =>
      dsimp only
      rw [foldl_add_bonus (fun kw => includesStr kw (lowerStr fn)) kws,
        foldl_add_pair
          (fun kw => countExact kw (lowerStr d.pageContent) * 10)
          (fun kw => countSubstr kw (lowerStr d.pageContent) * 2) kws 0]
      omega

/-- C10: a query containing a whitespace-separated token longer than 2
characters made up entirely of non-word characters (such as `"!!!"`)
tokenizes to a list that contains the empty keyword yet is non-empty, so the
no-keyword fallback is not triggered; the empty keyword's substring pass
matches at every position (`text.length + 1` matches), so every chunk —
whatever its text and metadata — gets a strictly positive score. -/
theorem c10_theorem (q t : List Char) (ht : t ∈ splitWs (lowerStr q))
    (hlen : 2 < t.length) (hnw : ∀ c ∈ t, isWordChar c = false) :
    [] ∈ tokenize q ∧ tokenize q ≠ [] ∧
      (∀ text : List Char, countSubstr [] text = text.length + 1) ∧
      (∀ d : Doc, 0 < scoreDoc (tokenize q) d) := by
  have hstrip : t.filter isWordChar = [] := by
    rw [List.filter_eq_nil_iff]
    intro c hc
    simp [hnw c hc]
  have hmem : [] ∈ tokenize q := by
    unfold tokenize
    rw [← hstrip]
    refine List.mem_map_of_mem _ ?_
    rw [List.mem_filter]
    exact ⟨ht, by simpa using hlen⟩
  refine ⟨hmem, List.ne_nil_of_mem hmem, fun text => by simp [countSubstr], ?_⟩
  intro d
  have hterm : 2 ≤ countExact [] (lowerStr d.pageContent) * 10 +
      countSubstr [] (lowerStr d.pageContent) * 2 := by
    have : countSubstr [] (lowerStr d.pageContent) =
        (lowerStr d.pageContent).length + 1 := by simp [countSubstr]
    omega
  have hsumge : countExact [] (lowerStr d.pageContent) * 10 +
      countSubstr [] (lowerStr d.pageContent) * 2 ≤
      ((tokenize q).map (fun kw =>
        countExact kw (lowerStr d.pageContent) * 10 +
        countSubstr kw (lowerStr d.pageContent) * 2)).sum := by
    refine List.single_le_sum (fun x _ => Nat.zero_le x) _ ?_
    exact List.mem_map_of_mem _ hmem
  have := scoreDoc_base_le (tokenize q) d
  omega

/-- C10 witness: the query `"!!!"` itself, scored against a concrete chunk. -/
theorem c10_witness :
    [] ∈ tokenize "!!!".toList ∧
      0 < scoreDoc (tokenize "!!!".toList)
          ⟨"some chunk text".toList, some ⟨some "f.txt".toList, none⟩⟩ := by
  have h := c10_theorem "!!!".toList "!!!".toList (by decide) (by decide)
    (by decide)
  exact ⟨h.1, h.2.2.2 _⟩

instance : IsTotal (Doc × Nat) scoreGE :=
  ⟨fun a b => Nat.le_total b.2 a.2⟩

instance : IsTrans (Doc × Nat) scoreGE :=
  ⟨fun _ _ _ hab hbc => Nat.le_trans hbc hab⟩

theorem scored_pair_eq (store : List Doc) (kws : List (List Char))
    (pair : Doc × Nat)
    (h : pair ∈ store.map (fun d => (d, scoreDoc kws d))) :
    pair.2 = scoreDoc kws pair.1 ∧ pair.1 ∈ store := by
  rcases List.mem_map.mp h with ⟨d, hd, hpair⟩
  rw [← hpair]
  exact ⟨rfl, hd⟩

/-- C2 counterexample: with `k = 0` the top-k slice is empty, so the final
fallback fires and returns a chunk even though the store's only chunk scores
strictly above zero (12 points for the query `"hello"`): the claim's "at most
`k` results" and its "fallback only on an entirely-zero-scoring store" both
fail at this input. -/
theorem c2_counterexample :
    (searchSimilarDocuments
        [⟨"hello world".toList, some ⟨some "notes.txt".toList, some "f1".toList⟩⟩]
        "hello".toList 0).length = 1 ∧
      0 < scoreDoc (tokenize "hello".toList)
          ⟨"hello world".toList, some ⟨some "notes.txt".toList, some "f1".toList⟩⟩ := by
  constructor
  · decide
  · decide

/-- C2 (amended): for every store, every `k ≥ 1`, and every query whose
tokenization yields at least one keyword, `search` returns at most `k` chunks
and never one scoring 0 — except the fallback case: when the store is
non-empty and no chunk scores above zero it returns the first
`min 3 (store size)` chunks regardless of score.  (For `k = 0`, and for
queries with no keywords, the claim fails: see the counterexample and the
no-keyword path `documents.slice(0, k)`.) -/
theorem c2_theorem (store : List Doc) (q : List Char) (k : Nat)
    (hk : 1 ≤ k) (hkw : tokenize q ≠ []) :
    ((searchSimilarDocuments store q k).length ≤ k ∧
      ∀ d ∈ searchSimilarDocuments store q k, 0 < scoreDoc (tokenize q) d) ∨
    (store ≠ [] ∧ (∀ d ∈ store, scoreDoc (tokenize q) d = 0) ∧
      searchSimilarDocuments store q k = store.take (min 3 store.length)) := by
  by_cases hs : store.length = 0
  · left
    simp only [searchSimilarDocuments, if_pos hs]
    constructor
    · simp
    · intro d hd
      simp at hd
  · have hkwlen : ¬ ((tokenize q).length = 0) := by
      simpa [List.length_eq_zero] using hkw
    set kws := tokenize q with hkws
    set scored := store.map (fun d => (d, scoreDoc kws d)) with hscored
    set sorted := scored.insertionSort scoreGE with hsorted
    set results := ((sorted.take k).filter (fun item => item.2 > 0)).map
      (fun item => item.1) with hresults
    have hunfold : searchSimilarDocuments store q k =
        if results.length = 0 then store.take (min 3 store.length)
        else results := by
      simp only [searchSimilarDocuments, if_neg hs, ← hkws, if_neg hkwlen,
        ← hscored, ← hsorted, ← hresults]
    by_cases hres : results.length = 0
    · right
      have hresnil : results = [] := List.length_eq_zero.mp hres
      refine ⟨by simpa [List.length_eq_zero] using hs, ?_, by
        rw [hunfold, if_pos hres]⟩
      intro d hd
      by_contra h0
      have hpos : 0 < scoreDoc kws d := Nat.pos_of_ne_zero h0
      have hpair : (d, scoreDoc kws d) ∈ scored :=
        List.mem_map_of_mem _ hd
      have hmemsorted : (d, scoreDoc kws d) ∈ sorted := by
        rw [hsorted, List.mem_insertionSort]
        exact hpair
      cases hcons : sorted with
      | nil => rw [hcons] at hmemsorted; simp at hmemsorted
      | cons hd0 tl =>
        have hsortedrel : List.Sorted scoreGE (hd0 :: tl) := by
          rw [← hcons, hsorted]
          exact List.sorted_insertionSort scoreGE scored
        have hmax : (d, scoreDoc kws d).2 ≤ hd0.2 := by
          rw [hcons] at hmemsorted
          rcases List.mem_cons.mp hmemsorted with heq | htl
          · rw [heq]
          · exact List.rel_of_sorted_cons hsortedrel _ htl
        have hhd0 : 0 < hd0.2 := lt_of_lt_of_le hpos hmax
        obtain ⟨k', rfl⟩ : ∃ k', k = k' + 1 := by
          cases k with
          | zero => omega
          | succ n => exact ⟨n, rfl⟩
        have hmemtake : hd0 ∈ sorted.take (k' + 1) := by
          rw [hcons, List.take_succ_cons]
          exact List.mem_cons_self _ _
        have hmemfilter : hd0 ∈ (sorted.take (k' + 1)).filter
            (fun item => item.2 > 0) := by
          rw [List.mem_filter]
          exact ⟨hmemtake, by simpa using hhd0⟩
        have : hd0.1 ∈ results := by
          rw [hresults]
          exact List.mem_map_of_mem _ hmemfilter
        rw [hresnil] at this
        simp at this
    · left
      rw [hunfold, if_neg hres]
      constructor
      · calc results.length
            = ((sorted.take k).filter (fun item => item.2 > 0)).length := by
              rw [hresults, List.length_map]
          _ ≤ (sorted.take k).length := List.length_filter_le _ _
          _ ≤ k := by
              rw [List.length_take]
              exact min_le_left _ _
      · intro d hd
        rw [hresults] at hd
        rcases List.mem_map.mp hd with ⟨pair, hpairmem, hfst⟩
        rw [List.mem_filter] at hpairmem
        have hpair2 : 0 < pair.2 := by simpa using hpairmem.2
        have hmem : pair ∈ scored := by
          have := List.mem_of_mem_take hpairmem.1
          rw [hsorted, List.mem_insertionSort] at this
          exact this
        have := (scored_pair_eq store kws pair hmem).1
        rw [← hfst, ← this]
        exact hpair2

/-- C2 witness: a two-chunk store, query `"hello"`, `k = 1`: the non-fallback
branch of the amended claim holds — one result, scoring above zero. -/
theorem c2_witness :
    ((searchSimilarDocuments
        [⟨"nothing relevant".toList, some ⟨some "other.txt".toList, some "f2".toList⟩⟩,
         ⟨"hello world".toList, some ⟨some "notes.txt".toList, some "f1".toList⟩⟩]
        "hello".toList 1).length ≤ 1 ∧
      ∀ d ∈ searchSimilarDocuments
        [⟨"nothing relevant".toList, some ⟨some "other.txt".toList, some "f2".toList⟩⟩,
         ⟨"hello world".toList, some ⟨some "notes.txt".toList, some "f1".toList⟩⟩]
        "hello".toList 1, 0 < scoreDoc (tokenize "hello".toList) d) ∨
    ([⟨"nothing relevant".toList, some ⟨some "other.txt".toList, some "f2".toList⟩⟩,
      ⟨"hello world".toList, some ⟨some "notes.txt".toList, some "f1".toList⟩⟩] ≠
        ([] : List Doc) ∧
      (∀ d ∈ [⟨"nothing relevant".toList, some ⟨some "other.txt".toList, some "f2".toList⟩⟩,
         ⟨"hello world".toList, some ⟨some "notes.txt".toList, some "f1".toList⟩⟩],
        scoreDoc (tokenize "hello".toList) d = 0) ∧
      searchSimilarDocuments
        [⟨"nothing relevant".toList, some ⟨some "other.txt".toList, some "f2".toList⟩⟩,
         ⟨"hello world".toList, some ⟨some "notes.txt".toList, some "f1".toList⟩⟩]
        "hello".toList 1 =
        [⟨"nothing relevant".toList, some ⟨some "other.txt".toList, some "f2".toList⟩⟩,
         ⟨"hello world".toList, some ⟨some "notes.txt".toList, some "f1".toList⟩⟩].take
          (min 3 2)) :=
  c2_theorem
    [⟨"nothing relevant".toList, some ⟨some "other.txt".toList, some "f2".toList⟩⟩,
     ⟨"hello world".toList, some ⟨some "notes.txt".toList, some "f1".toList⟩⟩]
    "hello".toList 1 (by decide) (by decide)

theorem keepPred_eq_not_carries (fid : List Char) (d : Doc) :
    (match d.metadata with
     | none => true
     | some m => !(m.fileId == some fid)) = !(carries fid d) := by
  cases h : d.metadata <;> simp [carries, h]

/-- C1 counterexample: a store whose single chunk carries fileId `"file-1"`,
and a repository record with the same id.  The DELETE endpoint succeeds (it
removes the repository record) yet the chunk carrying the identifier is still
in the chunk store afterwards: the endpoint never invokes
`removeDocumentsByFileId`. -/
theorem c1_counterexample :
    (deleteKnowledgeBaseEndpoint "file-1".toList "u".toList
        ⟨[⟨"file-1".toList, "u".toList⟩],
         [⟨"chunk text".toList,
           some ⟨some "doc.txt".toList, some "file-1".toList⟩⟩]⟩).2 = true ∧
      (deleteKnowledgeBaseEndpoint "file-1".toList "u".toList
        ⟨[⟨"file-1".toList, "u".toList⟩],
         [⟨"chunk text".toList,
           some ⟨some "doc.txt".toList, some "file-1".toList⟩⟩]⟩).1.chunkStore =
        [⟨"chunk text".toList,
          some ⟨some "doc.txt".toList, some "file-1".toList⟩⟩] ∧
      carries "file-1".toList
        ⟨"chunk text".toList,
         some ⟨some "doc.txt".toList, some "file-1".toList⟩⟩ = true := by
  refine ⟨?_, ?_, ?_⟩
  · decide
  · decide
  · decide

/-- C1 (amended): the store-level operation `removeDocumentsByFileId` does
remove exactly the chunks carrying the given identifier (every surviving
chunk does not carry it, and every chunk not carrying it survives); but the
document-deletion endpoint never invokes it — deleting a document leaves the
process-wide chunk store unchanged, so chunks carrying the deleted document's
identifier remain. -/
theorem c1_theorem :
    (∀ (fid : List Char) (docs : List Doc) (d : Doc),
      d ∈ removeDocumentsByFileId fid docs → carries fid d = false) ∧
    (∀ (fid : List Char) (docs : List Doc) (d : Doc),
      d ∈ docs → carries fid d = false →
        d ∈ removeDocumentsByFileId fid docs) ∧
    (∀ (id userId : List Char) (st : ServerState),
      ((deleteKnowledgeBaseEndpoint id userId st).1).chunkStore =
        st.chunkStore) := by
  refine ⟨?_, ?_, ?_⟩
  · intro fid docs d hd
    have := (List.mem_filter.mp hd).2
    rw [keepPred_eq_not_carries] at this
    simpa using this
  · intro fid docs d hd hnc
    refine List.mem_filter.mpr ⟨hd, ?_⟩
    rw [keepPred_eq_not_carries, hnc]
    rfl
  · intro id userId st
    unfold deleteKnowledgeBaseEndpoint
    cases removeKbDocument id userId st.kbDocs <;> rfl

/-- C1 witness: `removeDocumentsByFileId "f1"` on a two-chunk store keeps
exactly the chunk with the other identifier, which does not carry `"f1"`; and
the deletion endpoint leaves a concrete chunk store untouched. -/
theorem c1_witness :
    carries "f1".toList
        ⟨"b".toList, some ⟨some "b.txt".toList, some "f2".toList⟩⟩ = false ∧
      (⟨"b".toList, some ⟨some "b.txt".toList, some "f2".toList⟩⟩ : Doc) ∈
        removeDocumentsByFileId "f1".toList
          [⟨"a".toList, some ⟨some "a.txt".toList, some "f1".toList⟩⟩,
           ⟨"b".toList, some ⟨some "b.txt".toList, some "f2".toList⟩⟩] ∧
      ((deleteKnowledgeBaseEndpoint "x".toList "u".toList
          ⟨[], [⟨"a".toList, none⟩]⟩).1).chunkStore = [⟨"a".toList, none⟩] :=
  ⟨by decide,
   c1_theorem.2.1 "f1".toList
     [⟨"a".toList, some ⟨some "a.txt".toList, some "f1".toList⟩⟩,
      ⟨"b".toList, some ⟨some "b.txt".toList, some "f2".toList⟩⟩]
     ⟨"b".toList, some ⟨some "b.txt".toList, some "f2".toList⟩⟩
     (by decide) (by decide),
   c1_theorem.2.2 "x".toList "u".toList ⟨[], [⟨"a".toList, none⟩]⟩⟩

theorem foldl_join_length_ge (sep : List Char) (xs : List (List Char)) :
    ∀ acc : List Char,
      acc.length ≤ (xs.foldl (fun a y => a ++ sep ++ y) acc).length := by
  induction xs with
  | nil => intro acc; exact le_refl _
  | cons y ys ih =>
    intro acc
    calc acc.length ≤ (acc ++ sep ++ y).length := by simp
      _ ≤ _ := ih (acc ++ sep ++ y)

theorem docContextBlock_length_pos (d : Doc) :
    0 < (docContextBlock d).length := by
  unfold docContextBlock
  cases d.metadata with
  | none => simp
  | some m =>
    cases m.filename with
    | none => simp
    | some f => by_cases hf : f = [] <;> simp [hf]

theorem search_ne_nil (store : List Doc) (q : List Char) (k : Nat)
    (hs : store ≠ []) (hk : 1 ≤ k) : searchSimilarDocuments store q k ≠ [] := by
  have hlen : ¬ (store.length = 0) := by
    simpa [List.length_eq_zero] using hs
  unfold searchSimilarDocuments
  rw [if_neg hlen]
  by_cases hkw : (tokenize q).length = 0
  · rw [if_pos hkw]
    refine List.ne_nil_of_length_pos ?_
    rw [List.length_take]
    omega
  · rw [if_neg hkw]
    dsimp only
    split
    · refine List.ne_nil_of_length_pos ?_
      rw [List.length_take]
      omega
    · next h => exact fun hnil => h (by rw [hnil]; rfl)

theorem buildContext_pos_iff (store : List Doc) (q : List Char) :
    0 < (buildContext (searchSimilarDocuments store q 3) store).length ↔
      searchSimilarDocuments store q 3 ≠ [] := by
  constructor
  · intro hpos hnil
    have hstore : store = [] := by
      by_contra hne
      exact search_ne_nil store q 3 hne (by omega) hnil
    rw [hnil, hstore] at hpos
    simp [buildContext] at hpos
  · intro hne
    cases hsearch : searchSimilarDocuments store q 3 with
    | nil => exact absurd hsearch hne
    | cons d ds =>
      unfold buildContext
      rw [if_pos (by simp)]
      simp only [List.map_cons, joinSep]
      calc 0 < (docContextBlock d).length := docContextBlock_length_pos d
        _ ≤ _ := foldl_join_length_ge _ _ _

theorem answerMessages_shape (store : List Doc) (convState : ConvState)
    (history : Option (List Message)) (convId : Option (List Char))
    (question : List Char) :
    ∃ rest : List Message,
      answerMessages store convState history convId question =
        (if (buildContext (searchSimilarDocuments store question 3)
              store).length > 0
         then (⟨"system".toList,
            kbSystemContent
              (buildContext (searchSimilarDocuments store question 3)
                store)⟩ : Message)
         else ⟨"system".toList, genericSystemContent⟩) :: rest ∧
      ∀ m ∈ rest, m.role ≠ "system".toList := by
  simp only [answerMessages]
  split
  · refine ⟨_, List.cons_append _ _ _, ?_⟩
    intro m hm
    rcases List.mem_append.mp hm with h1 | h1
    · simpa using (List.mem_filter.mp h1).2
    · have hm2 : m = ⟨"user".toList, question⟩ := by simpa using h1
      rw [hm2]
      show "user".toList ≠ "system".toList
      decide
  · refine ⟨_, rfl, ?_⟩
    intro m hm
    simpa using (List.mem_filter.mp hm).2

/-- C8: for every store, conversation state, optional history, optional
conversation id and question, the assembled completion-call message list has
exactly one system turn; that turn is its first element and is the
assembler's own — the knowledge-base template exactly when retrieval returned
chunks, the generic helpful-assistant instruction otherwise — and every turn
after the head (in particular every system turn of the supplied history,
which is filtered out) has a non-system role. -/
theorem c8_theorem (store : List Doc) (convState : ConvState)
    (history : Option (List Message)) (convId : Option (List Char))
    (question : List Char) :
    (answerMessages store convState history convId question).countP
        (fun m => m.role == "system".toList) = 1 ∧
      (answerMessages store convState history convId question).head? =
        some (if searchSimilarDocuments store question 3 = []
          then (⟨"system".toList, genericSystemContent⟩ : Message)
          else ⟨"system".toList,
            kbSystemContent
              (buildContext (searchSimilarDocuments store question 3)
                store)⟩) ∧
      ∀ m ∈ (answerMessages store convState history convId question).tail,
        m.role ≠ "system".toList := by
  obtain ⟨rest, heq, hrest⟩ :=
    answerMessages_shape store convState history convId question
  have hsys : (if (buildContext (searchSimilarDocuments store question 3)
        store).length > 0
      then (⟨"system".toList,
         kbSystemContent
           (buildContext (searchSimilarDocuments store question 3)
             store)⟩ : Message)
      else ⟨"system".toList, genericSystemContent⟩) =
      (if searchSimilarDocuments store question 3 = []
        then (⟨"system".toList, genericSystemContent⟩ : Message)
        else ⟨"system".toList,
          kbSystemContent
            (buildContext (searchSimilarDocuments store question 3)
              store)⟩) := by
    by_cases hsearch : searchSimilarDocuments store question 3 = []
    · rw [if_pos hsearch, if_neg]
      intro hpos
      exact (buildContext_pos_iff store question).mp hpos hsearch
    · rw [if_neg hsearch, if_pos ((buildContext_pos_iff store question).mpr
        hsearch)]
  rw [heq, hsys]
  refine ⟨?_, rfl, ?_⟩
  · rw [List.countP_cons]
    have hzero : rest.countP (fun m => m.role == "system".toList) = 0 := by
      rw [List.countP_eq_zero]
      intro m hm
      simpa using hrest m hm
    rw [hzero]
    split <;> simp
  · simpa using hrest

/-- C8 witness: with an empty store and a caller-supplied history containing a
system turn, the assembled list has exactly one system turn and the surviving
history turn keeps its non-system role. -/
theorem c8_witness :
    (answerMessages [] emptyConvState
        (some [⟨"system".toList, "old".toList⟩, ⟨"user".toList, "hi".toList⟩])
        none "q".toList).countP (fun m => m.role == "system".toList) = 1 ∧
      (⟨"user".toList, "hi".toList⟩ : Message).role ≠ "system".toList :=
  ⟨(c8_theorem [] emptyConvState
      (some [⟨"system".toList, "old".toList⟩, ⟨"user".toList, "hi".toList⟩])
      none "q".toList).1,
   (c8_theorem [] emptyConvState
      (some [⟨"system".toList, "old".toList⟩, ⟨"user".toList, "hi".toList⟩])
      none "q".toList).2.2 ⟨"user".toList, "hi".toList⟩ (by decide)⟩

/-- C9: when the answer request supplies neither a history array nor a
conversation id, the assembled message list is just the single system turn —
the current question is never added, so no user turn (and in particular none
containing the question) reaches the completion call. -/
theorem c9_theorem (store : List Doc) (convState : ConvState)
    (question : List Char) :
    (answerMessages store convState none none question).length = 1 ∧
      ∀ m ∈ answerMessages store convState none none question,
        m.role = "system".toList := by
  constructor
  · simp [answerMessages]
  · intro m hm
    simp only [answerMessages, List.filter_nil, Option.isNone_none,
      Option.isSome_none, Bool.and_false] at hm
    have hm1 := List.eq_of_mem_singleton (by simpa using hm)
    rw [hm1]
    split <;> rfl

/-- C9 witness: with a one-chunk store and neither history nor conversation
id, the completion call receives exactly one message and it has the system
role. -/
theorem c9_witness :
    (answerMessages [⟨"hello world".toList, none⟩] emptyConvState none none
        "hi".toList).length = 1 ∧
      (∀ m ∈ answerMessages [⟨"hello world".toList, none⟩] emptyConvState none
          none "hi".toList, m.role = "system".toList) :=
  ⟨( c9_theorem [⟨"hello world".toList, none⟩] emptyConvState "hi".toList).1,
   fun m hm =>
     ( c9_theorem [⟨"hello world".toList, none⟩] emptyConvState "hi".toList).2
       m hm⟩
